import Mathlib

/-!
Shallow embedding of `inbox/sqlalchemy_ext/util.py`: the base-36 public-id
codec (`int128_to_b36`, `b36_to_bin`, `generate_public_id`), the windowed
iteration helper `safer_yield_per`, and the change-tracking collection wrappers
`MutableList` / `MutableDict`.

Conventions: byte strings are lists of naturals below 256; Python `None`
outcomes are `Option.none`; a raised exception is `Except.error` (or `none`
for a helper whose only failure mode is a raise).
-/

/-- Modelled from the spec: `base36encode` lives in `inbox.util.encoding`,
which is not part of the embedded source file; the spec says the codec
"renders it in base-36 using digits `0-9a-z`, lowercase". This helper maps a
digit value `m < 36` to its character: `0`-`9` for values below ten,
`a`-`z` for the rest. -/
def b36digitChar (m : Nat) : Char :=
  if m < 10 then Char.ofNat (48 + m) else Char.ofNat (87 + m)

/-- Base-36 digit list of `n`, most significant digit first; empty for zero. -/
def b36chars (n : Nat) : List Char :=
  if h : n = 0 then []
  else b36chars (n / 36) ++ [b36digitChar (n % 36)]
termination_by n
decreasing_by exact Nat.div_lt_self (Nat.pos_of_ne_zero h) (by norm_num)

/-- Modelled from the spec: `base36encode` renders a nonnegative integer in
base 36, lowercase, with zero rendered as `"0"`. -/
def base36encode (n : Nat) : String :=
  if n = 0 then "0" else ⟨b36chars n⟩

/-- Value of one base-36 digit character, case-insensitive; `none` outside
the alphabet. -/
def b36digitVal (c : Char) : Option Nat :=
  if '0' ≤ c ∧ c ≤ '9' then some (c.toNat - 48)
  else if 'a' ≤ c ∧ c ≤ 'z' then some (c.toNat - 87)
  else if 'A' ≤ c ∧ c ≤ 'Z' then some (c.toNat - 55)
  else none

/-- Left fold accumulating base-36 digit values, failing on a bad digit. -/
def b36decodeAux (acc : Option Nat) (cs : List Char) : Option Nat :=
  cs.foldl (fun a c => a.bind fun v => (b36digitVal c).map fun d => v * 36 + d) acc

/-- Modelled from the spec: `base36decode` (also from `inbox.util.encoding`)
parses a base-36 string, case-insensitively; it fails (`none`, modelling the
raise) on an empty string or on any character outside the alphabet. -/
def base36decode (s : String) : Option Nat :=
  if s.data.isEmpty then none else b36decodeAux (some 0) s.data

/-- Big-endian rendering of `n` on `k` bytes (low bits of `n` beyond `k` bytes
are simply what `/` and `%` leave). -/
def natToBeBytes : Nat → Nat → List Nat
  | 0, _ => []
  | k + 1, n => n / 256 ^ k % 256 :: natToBeBytes k n

/-- `struct.unpack` of one big-endian unsigned word. -/
def beBytesToNat (bs : List Nat) : Nat :=
  bs.foldl (fun acc b => acc * 256 + b) 0

def MAX_INT64 : Nat := 0xFFFFFFFFFFFFFFFF

/-- `struct.pack('>QQ', hi, lo)`: 16 big-endian bytes; fails (Python
`struct.error`) if a word does not fit in 64 bits. -/
def pack_QQ (hi lo : Nat) : Option (List Nat) :=
  if hi < 2 ^ 64 ∧ lo < 2 ^ 64 then some (natToBeBytes 8 hi ++ natToBeBytes 8 lo)
  else none

/-- Python `str.lower()`: lowercase every character (ASCII case mapping,
as `String.toLower` does character by character). -/
def pyLower (s : String) : String :=
  ⟨s.data.map Char.toLower⟩

/-- `int128_to_b36`: falsy input (`None` or empty bytes) gives `None`;
a non-16-byte input trips the assertion (`Except.error`); otherwise the two
big-endian 64-bit words are unpacked, composed as `(a << 64) | b` and rendered
in base 36, lowercased. -/
def int128_to_b36 (int128 : Option (List Nat)) : Except String (Option String) :=
  match int128 with
  | none => .ok none
  | some bs =>
    if bs.isEmpty then .ok none
    else if bs.length = 16 then
      let a := beBytesToNat (bs.take 8)
      let b := beBytesToNat (bs.drop 8)
      let pub_id := (a <<< 64) ||| b
      .ok (some (pyLower (base36encode pub_id)))
    else .error "should be 16 bytes (128 bits)"

/-- `b36_to_bin`: decode the base-36 string, mask each 64-bit word with
`MAX_INT64` and pack them big-endian; `none` models a raised exception. -/
def b36_to_bin (b36_string : String) : Option (List Nat) :=
  (base36decode b36_string).bind fun int128 =>
    pack_QQ ((int128 >>> 64) &&& MAX_INT64) (int128 &&& MAX_INT64)

/-- `generate_public_id`, as a function of the 16 random bytes produced by
`uuid.uuid4().bytes`. -/
def generate_public_id (u : List Nat) : Except String (Option String) :=
  int128_to_b36 (some u)

/-! ### The windowed scanner `safer_yield_per`

A row carries its `id` attribute and the value of the caller-chosen window
field (`id_field`); the table stands for the queried collection, listed in
ascending order of the window field (the `order_by` contract of the source).
-/

structure Record where
  id : Int
  key : Int
deriving DecidableEq

/-- One round trip:
`query.filter(id_field >= cur_id).order_by(id_field).limit(count).all()`,
over a table already listed in ascending order of the window field. -/
def fetch (table : List Record) (id_field : Record → Int) (cur_id : Int)
    (count : Nat) : List Record :=
  (table.filter fun r => decide (cur_id ≤ id_field r)).take count

/-- `safer_yield_per`, fuel-indexed (the Python `while True` loop has no bound
of its own): returns the records yielded before termination together with the
number of fetches issued, or `none` when `fuel` rounds were not enough. The
loop stops exactly when a fetch comes back empty, and the cursor advance is
the source's `cur_id = results[-1].id + 1`. -/
def safer_yield_per (table : List Record) (id_field : Record → Int)
    (count : Nat) : Nat → Int → Option (List Record × Nat)
  | 0, _ => none
  | fuel + 1, cur_id =>
    let results := fetch table id_field cur_id count
    if h : results = [] then some ([], 1)
    else
      match safer_yield_per table id_field count fuel ((results.getLast h).id + 1) with
      | none => none
      | some (rest, fetches) => some (results ++ rest, fetches + 1)

/-- Five records with ids (and window keys) 1..5. -/
def table5 : List Record := [⟨1, 1⟩, ⟨2, 2⟩, ⟨3, 3⟩, ⟨4, 4⟩, ⟨5, 5⟩]

/-- A table sorted ascending by the window field `key`, whose `id` attribute
disagrees with it. -/
def tableKeyed : List Record := [⟨5, 1⟩, ⟨0, 2⟩]

/-! ### Change-tracking collection wrappers

`TrackedList`/`TrackedDict` pair the underlying container with the number of
`changed()` notifications emitted so far. Each method returns the object state
after the call together with the outcome (`Except.error` models a raised
exception, which leaves the object as it was, the notification not emitted).
The primitives below model the Python `list`/`dict` built-ins the wrappers
delegate to.
-/

structure TrackedList (α : Type) where
  data : List α
  changeCount : Nat
deriving DecidableEq

structure TrackedDict (κ α : Type) where
  data : List (κ × α)
  changeCount : Nat
deriving DecidableEq

/-- Python index normalization: a negative index counts from the end. -/
def pyIndex (n : Nat) (i : Int) : Int :=
  if i < 0 then i + n else i

/-- `list.__setitem__` with an integer index; `none` is an `IndexError`. -/
def listSetItem {α : Type} (l : List α) (i : Int) (v : α) : Option (List α) :=
  let j := pyIndex l.length i
  if 0 ≤ j ∧ j.toNat < l.length then some (l.set j.toNat v) else none

/-- `list.__delitem__` with an integer index; `none` is an `IndexError`. -/
def listDelItem {α : Type} (l : List α) (i : Int) : Option (List α) :=
  let j := pyIndex l.length i
  if 0 ≤ j ∧ j.toNat < l.length then some (l.eraseIdx j.toNat) else none

/-- `list.pop`: the index argument defaults to `-1`; `none` is an
`IndexError` (in particular on an empty list). -/
def listPop {α : Type} (l : List α) (arg : Option Int) : Option (α × List α) :=
  let j := pyIndex l.length (arg.getD (-1))
  if h : 0 ≤ j ∧ j.toNat < l.length then
    some (l.get ⟨j.toNat, h.2⟩, l.eraseIdx j.toNat)
  else none

/-- `list.remove`: drop the first occurrence; `none` is the `ValueError`
raised when the value is absent. -/
def listRemove {α : Type} [DecidableEq α] (l : List α) (v : α) : Option (List α) :=
  if v ∈ l then some (l.erase v) else none

/-- `list.insert`: Python clamps the index, never raising. -/
def listInsertAt {α : Type} (l : List α) (i : Int) (v : α) : List α :=
  let j := (if i < 0 then max 0 (i + l.length) else min i l.length).toNat
  l.take j ++ v :: l.drop j

/-- `list.__setslice__` (Python 2 simple slices: clamped nonnegative bounds,
an inverted range behaving as insertion); never raises. -/
def listSetSlice {α : Type} (l : List α) (start stop : Nat) (values : List α) : List α :=
  let s := min start l.length
  let t := min (max stop start) l.length
  l.take s ++ values ++ l.drop t

/-- `list.__delslice__`; never raises. -/
def listDelSlice {α : Type} (l : List α) (start stop : Nat) : List α :=
  let s := min start l.length
  let t := min (max stop start) l.length
  l.take s ++ l.drop t

/-- `dict.__setitem__` on the association-list model: replace the value of an
existing key, else add the pair; never raises. -/
def dictSet {κ α : Type} [DecidableEq κ] (d : List (κ × α)) (k : κ) (v : α) :
    List (κ × α) :=
  if d.any fun p => decide (p.1 = k) then
    d.map fun p => if p.1 = k then (k, v) else p
  else d ++ [(k, v)]

/-- `dict.__delitem__`; `none` is the `KeyError` raised on a missing key. -/
def dictDel {κ α : Type} [DecidableEq κ] (d : List (κ × α)) (k : κ) :
    Option (List (κ × α)) :=
  if d.any fun p => decide (p.1 = k) then
    some (d.filter fun p => decide (p.1 ≠ k))
  else none

/-- `MutableList.__setitem__`: `list.__setitem__(self, idx, value)` then
`self.changed()`. -/
def MutableList.setitem {α : Type} (s : TrackedList α) (i : Int) (v : α) :
    TrackedList α × Except String Unit :=
  match listSetItem s.data i v with
  | none => (s, .error "IndexError")
  | some l => (⟨l, s.changeCount + 1⟩, .ok ())

/-- `MutableList.__delitem__`: `list.__delitem__(self, idx)` then `changed()`. -/
def MutableList.delitem {α : Type} (s : TrackedList α) (i : Int) :
    TrackedList α × Except String Unit :=
  match listDelItem s.data i with
  | none => (s, .error "IndexError")
  | some l => (⟨l, s.changeCount + 1⟩, .ok ())

/-- `MutableList.__setslice__`: `list.__setslice__(...)` then `changed()`. -/
def MutableList.setslice {α : Type} (s : TrackedList α) (start stop : Nat)
    (values : List α) : TrackedList α × Except String Unit :=
  (⟨listSetSlice s.data start stop values, s.changeCount + 1⟩, .ok ())

/-- `MutableList.__delslice__`: `list.__delslice__(...)` then `changed()`. -/
def MutableList.delslice {α : Type} (s : TrackedList α) (start stop : Nat) :
    TrackedList α × Except String Unit :=
  (⟨listDelSlice s.data start stop, s.changeCount + 1⟩, .ok ())

/-- `MutableList.append`: `list.append(self, value)` then `changed()`. -/
def MutableList.append {α : Type} (s : TrackedList α) (v : α) :
    TrackedList α × Except String Unit :=
  (⟨s.data ++ [v], s.changeCount + 1⟩, .ok ())

/-- `MutableList.insert`: `list.insert(self, idx, value)` then `changed()`. -/
def MutableList.insert {α : Type} (s : TrackedList α) (i : Int) (v : α) :
    TrackedList α × Except String Unit :=
  (⟨listInsertAt s.data i v, s.changeCount + 1⟩, .ok ())

/-- `MutableList.extend`: `list.extend(self, values)` then `changed()`. -/
def MutableList.extend {α : Type} (s : TrackedList α) (values : List α) :
    TrackedList α × Except String Unit :=
  (⟨s.data ++ values, s.changeCount + 1⟩, .ok ())

/-- `MutableList.pop`: `value = list.pop(self, *args)`, then `changed()`,
then `return value`. -/
def MutableList.pop {α : Type} (s : TrackedList α) (arg : Option Int) :
    TrackedList α × Except String α :=
  match listPop s.data arg with
  | none => (s, .error "IndexError")
  | some (v, l) => (⟨l, s.changeCount + 1⟩, .ok v)

/-- `MutableList.remove`: `list.remove(self, value)` then `changed()`. -/
def MutableList.remove {α : Type} [DecidableEq α] (s : TrackedList α) (v : α) :
    TrackedList α × Except String Unit :=
  match listRemove s.data v with
  | none => (s, .error "ValueError")
  | some l => (⟨l, s.changeCount + 1⟩, .ok ())

/-- `MutableDict.__setitem__`: `dict.__setitem__(self, key, value)` then
`changed()`. -/
def MutableDict.setitem {κ α : Type} [DecidableEq κ] (s : TrackedDict κ α)
    (k : κ) (v : α) : TrackedDict κ α × Except String Unit :=
  (⟨dictSet s.data k v, s.changeCount + 1⟩, .ok ())

/-- `MutableDict.__delitem__`: `dict.__delitem__(self, key)` then `changed()`. -/
def MutableDict.delitem {κ α : Type} [DecidableEq κ] (s : TrackedDict κ α)
    (k : κ) : TrackedDict κ α × Except String Unit :=
  match dictDel s.data k with
  | none => (s, .error "KeyError")
  | some d => (⟨d, s.changeCount + 1⟩, .ok ())


/-! ### Lemmas: big-endian byte packing -/

theorem natToBeBytes_length (k n : Nat) : (natToBeBytes k n).length = k := by
  induction k generalizing n with
  | zero => rfl
  | succ k ih => simp [natToBeBytes, ih]

theorem natToBeBytes_bytes_lt (k n : Nat) : ∀ b ∈ natToBeBytes k n, b < 256 := by
  induction k generalizing n with
  | zero => simp [natToBeBytes]
  | succ k ih =>
    simp only [natToBeBytes, List.mem_cons]
    rintro b (rfl | hb)
    · exact Nat.mod_lt _ (by norm_num)
    · exact ih n b hb

theorem natToBeBytes_take (j k n : Nat) :
    (natToBeBytes (j + k) n).take j = natToBeBytes j (n / 256 ^ k) := by
  induction j generalizing n with
  | zero => rfl
  | succ j ih =>
    have hjk : j + 1 + k = (j + k) + 1 := by omega
    rw [hjk]
    simp only [natToBeBytes, List.take_succ_cons]
    rw [ih]
    congr 1
    rw [Nat.div_div_eq_div_mul, ← pow_add, Nat.add_comm k j]

theorem natToBeBytes_drop (j k n : Nat) :
    (natToBeBytes (j + k) n).drop j = natToBeBytes k n := by
  induction j generalizing n with
  | zero => simp
  | succ j ih =>
    have hjk : j + 1 + k = (j + k) + 1 := by omega
    rw [hjk]
    simp only [natToBeBytes, List.drop_succ_cons]
    exact ih n

theorem beBytesToNat_foldl (k n acc : Nat) :
    (natToBeBytes k n).foldl (fun a b => a * 256 + b) acc =
      acc * 256 ^ k + n % 256 ^ k := by
  induction k generalizing acc with
  | zero => simp [natToBeBytes, Nat.mod_one]
  | succ k ih =>
    simp only [natToBeBytes, List.foldl_cons]
    rw [ih, pow_succ, Nat.mod_mul]
    ring

theorem beBytesToNat_natToBeBytes (k n : Nat) :
    beBytesToNat (natToBeBytes k n) = n % 256 ^ k := by
  simpa using beBytesToNat_foldl k n 0

theorem natToBeBytes_congr (k : Nat) :
    ∀ m n : Nat, m % 256 ^ k = n % 256 ^ k → natToBeBytes k m = natToBeBytes k n := by
  induction k with
  | zero => intro m n _; rfl
  | succ k ih =>
    intro m n h
    simp only [natToBeBytes]
    have hd : m / 256 ^ k % 256 = n / 256 ^ k % 256 := by
      rw [← Nat.mod_mul_right_div_self m (256 ^ k) 256,
        ← Nat.mod_mul_right_div_self n (256 ^ k) 256, ← pow_succ, h]
    have ht : m % 256 ^ k = n % 256 ^ k := by
      rw [← Nat.mod_mod_of_dvd m (pow_dvd_pow 256 (Nat.le_succ k)),
        ← Nat.mod_mod_of_dvd n (pow_dvd_pow 256 (Nat.le_succ k)), h]
    rw [hd, ih m n ht]

theorem beBytesToNat_lt (bs : List Nat) (h : ∀ b ∈ bs, b < 256) :
    beBytesToNat bs < 256 ^ bs.length := by
  suffices H : ∀ acc, bs.foldl (fun a b => a * 256 + b) acc < (acc + 1) * 256 ^ bs.length by
    simpa [beBytesToNat] using H 0
  induction bs with
  | nil => simp
  | cons b l ih =>
    intro acc
    simp only [List.foldl_cons, List.length_cons]
    have hb : b < 256 := h b (by simp)
    calc l.foldl (fun a b => a * 256 + b) (acc * 256 + b)
        < (acc * 256 + b + 1) * 256 ^ l.length :=
          ih (fun x hx => h x (by simp [hx])) (acc * 256 + b)
      _ ≤ ((acc + 1) * 256) * 256 ^ l.length := by
          have : acc * 256 + b + 1 ≤ (acc + 1) * 256 := by omega
          exact Nat.mul_le_mul_right _ this
      _ = (acc + 1) * 256 ^ (l.length + 1) := by ring

/-! ### Lemmas: base-36 rendering and parsing -/

theorem b36digit_facts (m : Nat) (h : m < 36) :
    b36digitVal (b36digitChar m) = some m ∧
      (b36digitChar m).toLower = b36digitChar m ∧
      (('0' ≤ b36digitChar m ∧ b36digitChar m ≤ '9') ∨
        ('a' ≤ b36digitChar m ∧ b36digitChar m ≤ 'z')) := by
  interval_cases m <;> exact ⟨by decide, by decide, by decide⟩

theorem b36chars_ne_nil (n : Nat) (h : n ≠ 0) : b36chars n ≠ [] := by
  rw [b36chars]
  simp [h]

theorem b36decodeAux_chars (n : Nat) :
    ∀ acc, b36decodeAux (some acc) (b36chars n) =
      some (acc * 36 ^ (b36chars n).length + n) := by
  induction n using Nat.strong_induction_on with
  | _ n ih =>
    intro acc
    rw [b36chars]
    by_cases h : n = 0
    · simp [h, b36decodeAux]
    · simp only [dif_neg h]
      have hdiv : n / 36 < n := Nat.div_lt_self (Nat.pos_of_ne_zero h) (by norm_num)
      have hmod : n % 36 < 36 := Nat.mod_lt _ (by norm_num)
      simp only [b36decodeAux, List.foldl_append] at *
      rw [ih (n / 36) hdiv acc]
      simp only [List.foldl_cons, List.foldl_nil, Option.some_bind,
        (b36digit_facts (n % 36) hmod).1, Option.map_some', List.length_append,
        List.length_cons, List.length_nil]
      congr 1
      generalize (b36chars (n / 36)).length = L
      have h2 : n / 36 * 36 + n % 36 = n := by omega
      rw [pow_succ]
      linarith [h2]

theorem b36chars_map_toLower (n : Nat) :
    (b36chars n).map Char.toLower = b36chars n := by
  induction n using Nat.strong_induction_on with
  | _ n ih =>
    rw [b36chars]
    by_cases h : n = 0
    · simp [h]
    · simp only [dif_neg h, List.map_append, List.map_cons, List.map_nil]
      rw [ih (n / 36) (Nat.div_lt_self (Nat.pos_of_ne_zero h) (by norm_num)),
        (b36digit_facts (n % 36) (Nat.mod_lt _ (by norm_num))).2.1]

theorem b36chars_mem_alphabet (n : Nat) :
    ∀ c ∈ b36chars n, ('0' ≤ c ∧ c ≤ '9') ∨ ('a' ≤ c ∧ c ≤ 'z') := by
  induction n using Nat.strong_induction_on with
  | _ n ih =>
    rw [b36chars]
    by_cases h : n = 0
    · simp [h]
    · simp only [dif_neg h, List.mem_append, List.mem_singleton]
      rintro c (hc | rfl)
      · exact ih (n / 36) (Nat.div_lt_self (Nat.pos_of_ne_zero h) (by norm_num)) c hc
      · exact (b36digit_facts (n % 36) (Nat.mod_lt _ (by norm_num))).2.2

theorem b36chars_length_le (n : Nat) :
    ∀ k, n < 36 ^ k → (b36chars n).length ≤ k := by
  induction n using Nat.strong_induction_on with
  | _ n ih =>
    intro k hk
    rw [b36chars]
    by_cases h : n = 0
    · simp [h]
    · rw [dif_neg h]
      simp only [List.length_append, List.length_cons, List.length_nil]
      obtain ⟨k', rfl⟩ : ∃ k', k = k' + 1 := by
        cases k with
        | zero =>
          exfalso
          have : n = 0 := by simpa using hk
          exact h this
        | succ k' => exact ⟨k', rfl⟩
      have hdivlt : n / 36 < 36 ^ k' := by
        rw [Nat.div_lt_iff_lt_mul (by norm_num : (0:Nat) < 36)]
        calc n < 36 ^ (k' + 1) := hk
          _ = 36 ^ k' * 36 := by rw [pow_succ]
      have := ih (n / 36) (Nat.div_lt_self (Nat.pos_of_ne_zero h) (by norm_num)) k' hdivlt
      omega

theorem base36decode_encode (n : Nat) :
    base36decode (pyLower (base36encode n)) = some n := by
  by_cases h : n = 0
  · subst h; decide
  · rw [base36encode, if_neg h]
    rw [pyLower]
    show base36decode ⟨(b36chars n).map Char.toLower⟩ = some n
    rw [b36chars_map_toLower]
    rw [base36decode]
    simp only [List.isEmpty_iff, b36chars_ne_nil n h, if_false]
    simpa using b36decodeAux_chars n 0

theorem natToBeBytes16_take8 (m : Nat) :
    (natToBeBytes 16 m).take 8 = natToBeBytes 8 (m / 2 ^ 64) := by
  have h := natToBeBytes_take 8 8 m
  norm_num at h ⊢
  exact h

theorem natToBeBytes16_drop8 (m : Nat) :
    (natToBeBytes 16 m).drop 8 = natToBeBytes 8 m := by
  have h := natToBeBytes_drop 8 8 m
  norm_num at h
  exact h

theorem natToBeBytes_split16 (m : Nat) :
    natToBeBytes 16 m = natToBeBytes 8 (m / 2 ^ 64) ++ natToBeBytes 8 m := by
  conv_lhs => rw [← List.take_append_drop 8 (natToBeBytes 16 m)]
  rw [natToBeBytes16_take8, natToBeBytes16_drop8]

theorem natToBeBytes8_mod (m : Nat) :
    natToBeBytes 8 (m % 2 ^ 64) = natToBeBytes 8 m := by
  apply natToBeBytes_congr
  rw [show (256:Nat) ^ 8 = 2 ^ 64 by norm_num]
  exact Nat.mod_mod_of_dvd m dvd_rfl

theorem int128_to_b36_bytes (m : Nat) (hm : m < 2 ^ 128) :
    int128_to_b36 (some (natToBeBytes 16 m)) =
      .ok (some (pyLower (base36encode m))) := by
  have hlen : (natToBeBytes 16 m).length = 16 := natToBeBytes_length 16 m
  have hne : natToBeBytes 16 m ≠ [] := by
    intro h0
    rw [h0] at hlen
    simp at hlen
  have hdivlt : m / 2 ^ 64 < 2 ^ 64 := by
    rw [Nat.div_lt_iff_lt_mul (by norm_num : (0:Nat) < 2 ^ 64)]
    calc m < 2 ^ 128 := hm
      _ = 2 ^ 64 * 2 ^ 64 := by norm_num
  have ha : beBytesToNat ((natToBeBytes 16 m).take 8) = m / 2 ^ 64 := by
    rw [natToBeBytes16_take8, beBytesToNat_natToBeBytes,
      show (256:Nat) ^ 8 = 2 ^ 64 by norm_num]
    exact Nat.mod_eq_of_lt hdivlt
  have hb : beBytesToNat ((natToBeBytes 16 m).drop 8) = m % 2 ^ 64 := by
    rw [natToBeBytes16_drop8, beBytesToNat_natToBeBytes]
    congr 1
  have hor : (m / 2 ^ 64) <<< 64 ||| m % 2 ^ 64 = m := by
    rw [Nat.shiftLeft_eq, Nat.mul_comm,
      ← Nat.mul_add_lt_is_or (Nat.mod_lt m (by norm_num)) (m / 2 ^ 64)]
    exact Nat.div_add_mod m (2 ^ 64)
  rw [int128_to_b36]
  have hempty : (natToBeBytes 16 m).isEmpty = false := by
    simp [List.isEmpty_eq_false, hne]
  simp only [hempty, Bool.false_eq_true, if_false, hlen, if_true, ha, hb, hor]

/-- C1: for every 128-bit unsigned integer `v`, decoding the encoding
round-trips: `int128_to_b36` on the 16-byte big-endian rendering of `v`
produces a base-36 string that `b36_to_bin` maps back to exactly those
16 bytes. -/
theorem int128_b36_roundtrip (v : Nat) (hv : v < 2 ^ 128) :
    ∃ s, int128_to_b36 (some (natToBeBytes 16 v)) = .ok (some s) ∧
      b36_to_bin s = some (natToBeBytes 16 v) := by
  refine ⟨pyLower (base36encode v), int128_to_b36_bytes v hv, ?_⟩
  rw [b36_to_bin, base36decode_encode, Option.some_bind]
  have hmask : MAX_INT64 = 2 ^ 64 - 1 := by norm_num [MAX_INT64]
  rw [hmask, Nat.shiftRight_eq_div_pow, Nat.and_pow_two_sub_one_eq_mod,
    Nat.and_pow_two_sub_one_eq_mod]
  have hdivlt : v / 2 ^ 64 < 2 ^ 64 := by
    rw [Nat.div_lt_iff_lt_mul (by norm_num : (0:Nat) < 2 ^ 64)]
    calc v < 2 ^ 128 := hv
      _ = 2 ^ 64 * 2 ^ 64 := by norm_num
  rw [Nat.mod_eq_of_lt hdivlt, pack_QQ,
    if_pos ⟨hdivlt, Nat.mod_lt v (by norm_num)⟩, natToBeBytes8_mod,
    ← natToBeBytes_split16]

theorem int128_b36_roundtrip_witness :
    (3 : Nat) < 2 ^ 128 ∧
      ∃ s, int128_to_b36 (some (natToBeBytes 16 3)) = .ok (some s) ∧
        b36_to_bin s = some (natToBeBytes 16 3) :=
  ⟨by norm_num, int128_b36_roundtrip 3 (by norm_num)⟩

/-- C4: `int128_to_b36` returns `None` without raising on absent or empty
input, and trips its assertion (an error, not a value) on every non-empty
input whose length is not 16 bytes. -/
theorem int128_to_b36_error_handling (bs : List Nat) (hne : bs ≠ [])
    (hlen : bs.length ≠ 16) :
    int128_to_b36 none = .ok none ∧ int128_to_b36 (some []) = .ok none ∧
      int128_to_b36 (some bs) = .error "should be 16 bytes (128 bits)" := by
  refine ⟨rfl, rfl, ?_⟩
  rw [int128_to_b36]
  have hempty : bs.isEmpty = false := by simp [List.isEmpty_eq_false, hne]
  simp [hempty, hlen]

theorem int128_to_b36_error_handling_witness :
    List.replicate 15 0 ≠ ([] : List Nat) ∧
      (List.replicate 15 0).length ≠ 16 ∧
      (int128_to_b36 none = .ok none ∧ int128_to_b36 (some []) = .ok none ∧
        int128_to_b36 (some (List.replicate 15 0)) =
          .error "should be 16 bytes (128 bits)") :=
  ⟨by decide, by decide,
    int128_to_b36_error_handling (List.replicate 15 0) (by decide) (by decide)⟩

/-- C7: sixteen zero bytes encode to the base-36 string `"0"`, and `"0"`
decodes back to sixteen zero bytes. -/
theorem b36_zero_roundtrip :
    int128_to_b36 (some (List.replicate 16 0)) = .ok (some "0") ∧
      b36_to_bin "0" = some (List.replicate 16 0) := by
  constructor
  · simp [int128_to_b36, beBytesToNat, base36encode, pyLower]
  · decide

/-- C9: on a base-36 string whose numeric value is at least `2^128`,
`b36_to_bin` does not raise: the two 64-bit words are masked with
`MAX_INT64`, so the result is the 16-byte big-endian packing of the value
modulo `2^128`, the high bits silently discarded. -/
theorem b36_to_bin_masks_overflow (s : String) (n : Nat)
    (hdec : base36decode s = some n) (hbig : 2 ^ 128 ≤ n) :
    b36_to_bin s = some (natToBeBytes 16 (n % 2 ^ 128)) := by
  rw [b36_to_bin, hdec, Option.some_bind]
  have hmask : MAX_INT64 = 2 ^ 64 - 1 := by norm_num [MAX_INT64]
  rw [hmask, Nat.shiftRight_eq_div_pow, Nat.and_pow_two_sub_one_eq_mod,
    Nat.and_pow_two_sub_one_eq_mod, pack_QQ,
    if_pos ⟨Nat.mod_lt _ (by norm_num), Nat.mod_lt n (by norm_num)⟩,
    natToBeBytes_split16 (n % 2 ^ 128)]
  have h1 : n / 2 ^ 64 % 2 ^ 64 = n % 2 ^ 128 / 2 ^ 64 := by
    rw [show (2:Nat) ^ 128 = 2 ^ 64 * 2 ^ 64 by norm_num,
      Nat.mod_mul_right_div_self]
  have h2 : natToBeBytes 8 (n % 2 ^ 64) = natToBeBytes 8 (n % 2 ^ 128) := by
    apply natToBeBytes_congr
    rw [show (256:Nat) ^ 8 = 2 ^ 64 by norm_num]
    omega
  rw [h1, h2]

theorem b36_to_bin_masks_overflow_witness :
    base36decode "zzzzzzzzzzzzzzzzzzzzzzzzz" = some (36 ^ 25 - 1) ∧
      2 ^ 128 ≤ 36 ^ 25 - 1 ∧
      b36_to_bin "zzzzzzzzzzzzzzzzzzzzzzzzz" =
        some (natToBeBytes 16 ((36 ^ 25 - 1) % 2 ^ 128)) :=
  ⟨by decide, by norm_num,
    b36_to_bin_masks_overflow "zzzzzzzzzzzzzzzzzzzzzzzzz" (36 ^ 25 - 1)
      (by decide) (by norm_num)⟩

/-- C8: on every 16-byte input, `generate_public_id` produces a string of at
most 25 characters, all drawn from `0-9a-z`. -/
theorem generate_public_id_shape (u : List Nat) (hlen : u.length = 16)
    (hbytes : ∀ b ∈ u, b < 256) :
    ∃ s, generate_public_id u = .ok (some s) ∧ s.length ≤ 25 ∧
      ∀ c ∈ s.data, ('0' ≤ c ∧ c ≤ '9') ∨ ('a' ≤ c ∧ c ≤ 'z') := by
  have hne : u ≠ [] := by
    intro h0
    rw [h0] at hlen
    simp at hlen
  have ha : beBytesToNat (u.take 8) < 2 ^ 64 := by
    have h1 : (u.take 8).length = 8 := by
      rw [List.length_take, hlen]
      omega
    have h2 := beBytesToNat_lt (u.take 8)
      (fun b hb => hbytes b (List.mem_of_mem_take hb))
    rw [h1] at h2
    calc beBytesToNat (u.take 8) < 256 ^ 8 := h2
      _ = 2 ^ 64 := by norm_num
  have hb : beBytesToNat (u.drop 8) < 2 ^ 64 := by
    have h1 : (u.drop 8).length = 8 := by rw [List.length_drop, hlen]
    have h2 := beBytesToNat_lt (u.drop 8)
      (fun b hb => hbytes b (List.mem_of_mem_drop hb))
    rw [h1] at h2
    calc beBytesToNat (u.drop 8) < 256 ^ 8 := h2
      _ = 2 ^ 64 := by norm_num
  have hpub : beBytesToNat (u.take 8) <<< 64 ||| beBytesToNat (u.drop 8)
      < 2 ^ 128 := by
    apply Nat.or_lt_two_pow
    · rw [Nat.shiftLeft_eq]
      calc beBytesToNat (u.take 8) * 2 ^ 64
          < 2 ^ 64 * 2 ^ 64 := mul_lt_mul_of_pos_right ha (by norm_num)
        _ = 2 ^ 128 := by norm_num
    · calc beBytesToNat (u.drop 8) < 2 ^ 64 := hb
        _ < 2 ^ 128 := by norm_num
  have henc : generate_public_id u = .ok (some (pyLower (base36encode
      (beBytesToNat (u.take 8) <<< 64 ||| beBytesToNat (u.drop 8))))) := by
    rw [generate_public_id, int128_to_b36]
    have hempty : u.isEmpty = false := by simp [List.isEmpty_eq_false, hne]
    simp [hempty, hlen]
  refine ⟨_, henc, ?_, ?_⟩
  · by_cases h0 : beBytesToNat (u.take 8) <<< 64 ||| beBytesToNat (u.drop 8) = 0
    · rw [h0]
      decide
    · have hP36 : beBytesToNat (u.take 8) <<< 64 ||| beBytesToNat (u.drop 8)
          < 36 ^ 25 := lt_of_lt_of_le hpub (by norm_num)
      show (pyLower (base36encode _)).data.length ≤ 25
      rw [pyLower]
      show ((base36encode _).data.map Char.toLower).length ≤ 25
      rw [base36encode, if_neg h0]
      show ((b36chars _).map Char.toLower).length ≤ 25
      rw [b36chars_map_toLower]
      exact b36chars_length_le _ 25 hP36
  · intro c hc
    by_cases h0 : beBytesToNat (u.take 8) <<< 64 ||| beBytesToNat (u.drop 8) = 0
    · rw [h0] at hc
      have hd : (pyLower (base36encode 0)).data = ['0'] := by decide
      rw [hd] at hc
      simp at hc
      subst hc
      decide
    · rw [pyLower] at hc
      show ('0' ≤ c ∧ c ≤ '9') ∨ ('a' ≤ c ∧ c ≤ 'z')
      have : (base36encode (beBytesToNat (u.take 8) <<< 64 |||
          beBytesToNat (u.drop 8))).data = b36chars (beBytesToNat (u.take 8) <<< 64 |||
          beBytesToNat (u.drop 8)) := by
        rw [base36encode, if_neg h0]
      rw [this, b36chars_map_toLower] at hc
      exact b36chars_mem_alphabet _ c hc

theorem generate_public_id_shape_witness :
    (List.replicate 16 255).length = 16 ∧
      (∀ b ∈ List.replicate 16 255, b < 256) ∧
      ∃ s, generate_public_id (List.replicate 16 255) = .ok (some s) ∧
        s.length ≤ 25 ∧
        ∀ c ∈ s.data, ('0' ≤ c ∧ c ≤ '9') ∨ ('a' ≤ c ∧ c ≤ 'z') :=
  ⟨by decide, by decide,
    generate_public_id_shape (List.replicate 16 255) (by decide) (by decide)⟩

/-! ### Lemmas: the windowed scanner -/

theorem fetch_length_le (table : List Record) (sel : Record → Int) (cur : Int)
    (count : Nat) : (fetch table sel cur count).length ≤ count := by
  rw [fetch, List.length_take]
  exact Nat.min_le_left _ _

theorem fetch_mem_cursor_le {table : List Record} {sel : Record → Int}
    {cur : Int} {count : Nat} {r : Record}
    (h : r ∈ fetch table sel cur count) : cur ≤ sel r := by
  rw [fetch] at h
  have h2 := List.mem_of_mem_take h
  simpa using (List.mem_filter.mp h2).2

theorem sorted_filter_after_take (L : List Record) :
    ∀ (count : Nat) (last : Record), 1 ≤ count →
      L.Pairwise (fun a b => a.id < b.id) →
      (L.take count).getLast? = some last →
      L.filter (fun r => decide (last.id + 1 ≤ r.id)) = L.drop count := by
  induction L with
  | nil =>
    intro count last _ _ hlast
    simp at hlast
  | cons x xs ih =>
    intro count last hc hs hlast
    obtain ⟨c, rfl⟩ : ∃ c, count = c + 1 := ⟨count - 1, by omega⟩
    rw [List.take_succ_cons] at hlast
    have hxlt : ∀ y ∈ xs, x.id < y.id := (List.pairwise_cons.mp hs).1
    have hxs : xs.Pairwise (fun a b => a.id < b.id) := (List.pairwise_cons.mp hs).2
    rw [List.drop_succ_cons]
    by_cases hc2 : xs.take c = []
    · rw [hc2, List.getLast?_singleton] at hlast
      have hx : x = last := by simpa using hlast
      subst hx
      rw [List.filter_cons]
      have hxfalse : decide (x.id + 1 ≤ x.id) = false := by
        simp
      rw [hxfalse]
      simp only [Bool.false_eq_true, if_false]
      have hall : xs.filter (fun r => decide (x.id + 1 ≤ r.id)) = xs := by
        rw [List.filter_eq_self]
        intro y hy
        simpa using hxlt y hy
      rw [hall]
      rcases List.take_eq_nil_iff.mp hc2 with h0 | h0
      · rw [h0, List.drop_zero]
      · rw [h0, List.drop_nil]
    · obtain ⟨y, t, hyt⟩ := List.exists_cons_of_ne_nil hc2
      rw [hyt, List.getLast?_cons_cons, ← hyt] at hlast
      have hc' : 1 ≤ c := by
        rcases Nat.eq_zero_or_pos c with h0 | h0
        · exact absurd (by rw [h0]; rfl) hc2
        · exact h0
      have hmem : last ∈ xs := by
        have h1 : last ∈ xs.take c := List.mem_of_getLast?_eq_some hlast
        exact List.mem_of_mem_take h1
      rw [List.filter_cons]
      have hxfalse : decide (last.id + 1 ≤ x.id) = false := by
        simp
        have := hxlt _ hmem
        omega
      rw [hxfalse]
      simp only [Bool.false_eq_true, if_false]
      exact ih c last hc' hxs hlast

theorem filter_cursor_advance (table : List Record)
    (hs : table.Pairwise fun a b => a.id < b.id) (count : Nat) (hc : 1 ≤ count)
    (cur : Int) (last : Record)
    (hlast : (fetch table Record.id cur count).getLast? = some last) :
    (table.filter fun r => decide (last.id + 1 ≤ r.id)) =
      (table.filter fun r => decide (cur ≤ r.id)).drop count := by
  have hmem : last ∈ fetch table Record.id cur count :=
    List.mem_of_getLast?_eq_some hlast
  have hcur : cur ≤ last.id := fetch_mem_cursor_le hmem
  have hF : (table.filter fun r => decide (cur ≤ r.id)).Pairwise
      (fun a b => a.id < b.id) := List.Pairwise.sublist (List.filter_sublist table) hs
  have hstep : (table.filter fun r => decide (last.id + 1 ≤ r.id)) =
      ((table.filter fun r => decide (cur ≤ r.id)).filter
        fun r => decide (last.id + 1 ≤ r.id)) := by
    rw [List.filter_filter]
    apply List.filter_congr
    intro r _
    by_cases hr : last.id + 1 ≤ r.id
    · simp [hr, show cur ≤ r.id from by omega]
    · simp [hr]
  rw [hstep]
  exact sorted_filter_after_take (table.filter fun r => decide (cur ≤ r.id))
    count last hc hF hlast

theorem safer_yield_per_succ (table : List Record) (sel : Record → Int)
    (count fuel : Nat) (cur : Int) :
    safer_yield_per table sel count (fuel + 1) cur =
      if h : fetch table sel cur count = [] then some ([], 1)
      else
        match safer_yield_per table sel count fuel
            (((fetch table sel cur count).getLast h).id + 1) with
        | none => none
        | some (rest, fetches) => some (fetch table sel cur count ++ rest, fetches + 1) :=
  rfl

theorem safer_yield_per_sorted (table : List Record)
    (hs : table.Pairwise fun a b => a.id < b.id) (count : Nat) (hc : 1 ≤ count) :
    ∀ (fuel : Nat) (cur : Int),
      (table.filter fun r => decide (cur ≤ r.id)).length < fuel →
      ∃ n, safer_yield_per table Record.id count fuel cur =
        some (table.filter fun r => decide (cur ≤ r.id), n) := by
  intro fuel
  induction fuel with
  | zero =>
    intro cur h
    omega
  | succ fuel ih =>
    intro cur hfuel
    by_cases hres : fetch table Record.id cur count = []
    · have hF : table.filter (fun r => decide (cur ≤ r.id)) = [] := by
        rw [fetch] at hres
        rcases List.take_eq_nil_iff.mp hres with h0 | h0
        · omega
        · exact h0
      refine ⟨1, ?_⟩
      rw [safer_yield_per_succ, dif_pos hres, hF]
    · rw [safer_yield_per_succ, dif_neg hres]
      have hlast2 : (fetch table Record.id cur count).getLast? =
          some ((fetch table Record.id cur count).getLast hres) :=
        List.getLast?_eq_getLast _ hres
      have hadv := filter_cursor_advance table hs count hc cur
        ((fetch table Record.id cur count).getLast hres) hlast2
      have hFne : table.filter (fun r => decide (cur ≤ r.id)) ≠ [] := by
        intro h0
        rw [fetch, h0, List.take_nil] at hres
        exact hres rfl
      have hFlen : 1 ≤ (table.filter fun r => decide (cur ≤ r.id)).length :=
        List.length_pos.mpr hFne
      have hfuel2 : (table.filter fun r =>
          decide (((fetch table Record.id cur count).getLast hres).id + 1 ≤ r.id)).length
            < fuel := by
        rw [hadv, List.length_drop]
        omega
      obtain ⟨n, hn⟩ := ih (((fetch table Record.id cur count).getLast hres).id + 1) hfuel2
      rw [hn]
      refine ⟨n + 1, ?_⟩
      show some (fetch table Record.id cur count ++ (table.filter fun r =>
        decide (((fetch table Record.id cur count).getLast hres).id + 1 ≤ r.id)), n + 1) =
        some ((table.filter fun r => decide (cur ≤ r.id)), n + 1)
      rw [hadv, fetch, List.take_append_drop]

/-- C5: if the source has no record with window key at or above the start
cursor, the scan yields nothing and issues exactly one fetch. -/
theorem scan_empty_source (table : List Record) (sel : Record → Int)
    (count fuel : Nat) (start : Int) (h : ∀ r ∈ table, sel r < start) :
    safer_yield_per table sel count (fuel + 1) start = some ([], 1) := by
  have hf : fetch table sel start count = [] := by
    rw [fetch]
    have hfil : table.filter (fun r => decide (start ≤ sel r)) = [] := by
      rw [List.filter_eq_nil_iff]
      intro r hr
      simpa using not_le.mpr (h r hr)
    rw [hfil, List.take_nil]
  rw [safer_yield_per_succ, dif_pos hf]

theorem scan_empty_source_witness :
    (∀ r ∈ [(⟨1, 1⟩ : Record)], r.id < 5) ∧
      safer_yield_per [⟨1, 1⟩] Record.id 3 1 5 = some ([], 1) :=
  ⟨by decide, scan_empty_source [⟨1, 1⟩] Record.id 3 0 5 (by decide)⟩

/-- C2 (counterexample): with keys 1..5 and window size 2, the run does not
terminate after 3 fetches — the loop only stops on an empty fetch, so a
fourth, empty fetch is issued. -/
theorem scan_five_keys_not_three_fetches :
    safer_yield_per table5 Record.id 2 10 1 ≠ some (table5, 3) := by
  decide

/-- C2 (amended): with keys 1..5 and window size 2, the scan yields the five
records in order and issues exactly 4 fetches — windows [1,2], [3,4], [5]
and a final empty window that triggers termination. -/
theorem scan_five_keys_four_fetches :
    safer_yield_per table5 Record.id 2 10 1 = some (table5, 4) ∧
      fetch table5 Record.id 1 2 = [⟨1, 1⟩, ⟨2, 2⟩] ∧
      fetch table5 Record.id 3 2 = [⟨3, 3⟩, ⟨4, 4⟩] ∧
      fetch table5 Record.id 5 2 = [⟨5, 5⟩] ∧
      fetch table5 Record.id 6 2 = [] := by
  decide

/-- C3 (code bug): the cursor advance uses the record's `id` attribute, not
the caller-supplied `id_field`. On a table windowed by the `key` field with
`key`-sorted records whose `id`s differ, the first fetch returns the record
with key 1 and id 5; the claim's advance would set the cursor to
`key + 1 = 2`, whose fetch is non-empty, but the code sets it to
`id + 1 = 6`, fetches empty, and stops after yielding one record. -/
theorem scan_advance_uses_id_attribute :
    safer_yield_per tableKeyed Record.key 1 10 1 = some ([⟨5, 1⟩], 2) ∧
      fetch tableKeyed Record.key 1 1 = [⟨5, 1⟩] ∧
      (⟨5, 1⟩ : Record).key + 1 = 2 ∧
      (⟨5, 1⟩ : Record).id + 1 = 6 ∧
      fetch tableKeyed Record.key 2 1 = [⟨0, 2⟩] ∧
      fetch tableKeyed Record.key 6 1 = [] := by
  decide

/-- C6 (counterexample): the invariants fail for a run whose `id_field` is
not the `id` attribute, even though the source honours the contract (the
table is ascending in the window field, keys unique): the record with key 2
is at or above the start key 1 yet never yielded, because the cursor jumps
to `id + 1 = 6`. -/
theorem scan_invariants_counterexample :
    safer_yield_per tableKeyed Record.key 1 10 1 = some ([⟨5, 1⟩], 2) ∧
      tableKeyed.Pairwise (fun a b => a.key < b.key) ∧
      (⟨0, 2⟩ : Record) ∈ tableKeyed ∧ (1 : Int) ≤ (⟨0, 2⟩ : Record).key ∧
      ¬(⟨0, 2⟩ : Record) ∈ [(⟨5, 1⟩ : Record)] := by
  refine ⟨by decide, ?_, by decide, by decide, by decide⟩
  simp [tableKeyed]

/-- C6 (amended): when the caller windows by the `id` attribute itself (the
field the hard-coded advance uses), over a source honouring the
filter/order/limit contract with unique immutable keys: the scan yields
every record with key at or above the start exactly once, in ascending
order; every fetch buffers at most `count` records; and each non-empty
fetch advances the cursor strictly. -/
theorem safer_yield_per_invariants (table : List Record) (count fuel : Nat)
    (start : Int) (hs : table.Pairwise fun a b => a.id < b.id)
    (hc : 1 ≤ count)
    (hfuel : (table.filter fun r => decide (start ≤ r.id)).length < fuel) :
    (∃ n, safer_yield_per table Record.id count fuel start =
        some (table.filter fun r => decide (start ≤ r.id), n)) ∧
      (table.filter fun r => decide (start ≤ r.id)).Pairwise
        (fun a b => a.id < b.id) ∧
      (∀ cur : Int, (fetch table Record.id cur count).length ≤ count) ∧
      (∀ (cur : Int) (h : fetch table Record.id cur count ≠ []),
        cur < ((fetch table Record.id cur count).getLast h).id + 1) := by
  refine ⟨safer_yield_per_sorted table hs count hc fuel start hfuel,
    List.Pairwise.sublist (List.filter_sublist table) hs,
    fun cur => fetch_length_le table Record.id cur count,
    fun cur h => ?_⟩
  have hmem : (fetch table Record.id cur count).getLast h ∈
      fetch table Record.id cur count := List.getLast_mem h
  have := fetch_mem_cursor_le hmem
  omega

theorem safer_yield_per_invariants_witness :
    (∃ n, safer_yield_per table5 Record.id 2 10 1 =
        some (table5.filter fun r => decide ((1 : Int) ≤ r.id), n)) ∧
      (table5.filter fun r => decide ((1 : Int) ≤ r.id)).Pairwise
        (fun a b => a.id < b.id) ∧
      (∀ cur : Int, (fetch table5 Record.id cur 2).length ≤ 2) ∧
      (∀ (cur : Int) (h : fetch table5 Record.id cur 2 ≠ []),
        cur < ((fetch table5 Record.id cur 2).getLast h).id + 1) :=
  safer_yield_per_invariants table5 2 10 1 (by decide) (by decide) (by decide)

/-- C10: every mutating operation of `MutableList` and `MutableDict` invokes
the change notification exactly once, only after the underlying container
mutation succeeds; when the underlying operation raises (pop on an empty
list, remove of an absent value, delete of a missing key, bad index), the
container and the notification count are left unchanged and the error
propagates. -/
theorem mutable_wrappers_notify_after_success (α κ : Type) [DecidableEq α]
    [DecidableEq κ] :
    (∀ (s : TrackedList α) (i : Int) (v : α),
      (∀ l, listSetItem s.data i v = some l →
        MutableList.setitem s i v = (⟨l, s.changeCount + 1⟩, .ok ())) ∧
      (listSetItem s.data i v = none →
        MutableList.setitem s i v = (s, .error "IndexError"))) ∧
    (∀ (s : TrackedList α) (i : Int),
      (∀ l, listDelItem s.data i = some l →
        MutableList.delitem s i = (⟨l, s.changeCount + 1⟩, .ok ())) ∧
      (listDelItem s.data i = none →
        MutableList.delitem s i = (s, .error "IndexError"))) ∧
    (∀ (s : TrackedList α) (a b : Nat) (vs : List α),
      MutableList.setslice s a b vs =
        (⟨listSetSlice s.data a b vs, s.changeCount + 1⟩, .ok ())) ∧
    (∀ (s : TrackedList α) (a b : Nat),
      MutableList.delslice s a b =
        (⟨listDelSlice s.data a b, s.changeCount + 1⟩, .ok ())) ∧
    (∀ (s : TrackedList α) (v : α),
      MutableList.append s v = (⟨s.data ++ [v], s.changeCount + 1⟩, .ok ())) ∧
    (∀ (s : TrackedList α) (i : Int) (v : α),
      MutableList.insert s i v =
        (⟨listInsertAt s.data i v, s.changeCount + 1⟩, .ok ())) ∧
    (∀ (s : TrackedList α) (vs : List α),
      MutableList.extend s vs = (⟨s.data ++ vs, s.changeCount + 1⟩, .ok ())) ∧
    (∀ (s : TrackedList α) (arg : Option Int),
      (∀ v l, listPop s.data arg = some (v, l) →
        MutableList.pop s arg = (⟨l, s.changeCount + 1⟩, .ok v)) ∧
      (listPop s.data arg = none →
        MutableList.pop s arg = (s, .error "IndexError"))) ∧
    (∀ (s : TrackedList α) (v : α),
      (∀ l, listRemove s.data v = some l →
        MutableList.remove s v = (⟨l, s.changeCount + 1⟩, .ok ())) ∧
      (listRemove s.data v = none →
        MutableList.remove s v = (s, .error "ValueError"))) ∧
    (∀ (s : TrackedDict κ α) (k : κ) (v : α),
      MutableDict.setitem s k v =
        (⟨dictSet s.data k v, s.changeCount + 1⟩, .ok ())) ∧
    (∀ (s : TrackedDict κ α) (k : κ),
      (∀ d, dictDel s.data k = some d →
        MutableDict.delitem s k = (⟨d, s.changeCount + 1⟩, .ok ())) ∧
      (dictDel s.data k = none →
        MutableDict.delitem s k = (s, .error "KeyError"))) := by
  refine ⟨fun s i v => ⟨fun l h => ?_, fun h => ?_⟩,
    fun s i => ⟨fun l h => ?_, fun h => ?_⟩,
    fun s a b vs => rfl, fun s a b => rfl, fun s v => rfl,
    fun s i v => rfl, fun s vs => rfl,
    fun s arg => ⟨fun v l h => ?_, fun h => ?_⟩,
    fun s v => ⟨fun l h => ?_, fun h => ?_⟩,
    fun s k v => rfl,
    fun s k => ⟨fun d h => ?_, fun h => ?_⟩⟩ <;>
  simp [MutableList.setitem, MutableList.delitem, MutableList.pop,
    MutableList.remove, MutableDict.delitem, h]

theorem mutable_wrappers_witness :
    MutableList.pop (⟨[], 0⟩ : TrackedList Int) none =
        (⟨[], 0⟩, .error "IndexError") ∧
      MutableList.remove (⟨[1], 0⟩ : TrackedList Int) 2 =
        (⟨[1], 0⟩, .error "ValueError") ∧
      MutableDict.delitem (⟨[(1, 1)], 0⟩ : TrackedDict Int Int) 2 =
        (⟨[(1, 1)], 0⟩, .error "KeyError") ∧
      MutableList.append (⟨[1], 0⟩ : TrackedList Int) 2 =
        (⟨[1, 2], 1⟩, .ok ()) ∧
      MutableList.setitem (⟨[1, 2], 0⟩ : TrackedList Int) (-1) 7 =
        (⟨[1, 7], 1⟩, .ok ()) := by
  obtain ⟨h1, h2, h3, h4, h5, h6, h7, h8, h9, h10, h11⟩ :=
    mutable_wrappers_notify_after_success Int Int
  refine ⟨(h8 ⟨[], 0⟩ none).2 (by decide),
    (h9 ⟨[1], 0⟩ 2).2 (by decide),
    (h11 ⟨[(1, 1)], 0⟩ 2).2 (by decide),
    h5 ⟨[1], 0⟩ 2,
    (h1 ⟨[1, 2], 0⟩ (-1) 7).1 [1, 7] (by decide)⟩
